import Mathlib

/-!
Shallow embedding of the pronunciation-lexicon builder in
src/scripts/data_cleaning.py.

Python strings are modelled as Lean String values, but every string
operation the script uses (startswith, slicing, split, strip, lower,
upper) is re-implemented here over the underlying character list so
that all definitions compute by kernel reduction.  The global mutable
set bad_phones is threaded explicitly as a Finset String.  Python
IndexError (raised by out-of-range list indexing in the extraction and
lexicon-loading loops) is modelled by returning none.
-/

/-- The single-quote character U+0027, written by code point. -/
def squote : Char := Char.ofNat 39

/-- One-character string holding the single quote. -/
def squoteStr : String := String.mk [squote]

/-- Model of the Python test sep.startswith applied to character lists. -/
def leadsWith : List Char → List Char → Bool
  | [], _ => true
  | _ :: _, [] => false
  | a :: as, b :: bs => a == b && leadsWith as bs

/-- Model of Python str.startswith. -/
def pyStartsWith (pre s : String) : Bool :=
  leadsWith pre.data s.data

/-- Model of the Python slice s[1:], dropping the first character. -/
def pyDrop1 (s : String) : String :=
  String.mk (s.data.drop 1)

/-- Characters treated as whitespace by the model of str.strip. -/
def isSpaceChar (c : Char) : Bool :=
  c == ' ' || c == '\t' || c == '\n' || c == '\r'

/-- Strip leading and trailing whitespace from a character list. -/
def trimChars (l : List Char) : List Char :=
  ((l.dropWhile isSpaceChar).reverse.dropWhile isSpaceChar).reverse

/-- Model of Python str.strip with no arguments. -/
def pyStrip (s : String) : String :=
  String.mk (trimChars s.data)

/-- Model of Python str.lower (ASCII letters, as in the data handled here). -/
def pyLower (s : String) : String :=
  String.mk (s.data.map Char.toLower)

/-- Model of Python str.upper (ASCII letters, as in the data handled here). -/
def pyUpper (s : String) : String :=
  String.mk (s.data.map Char.toUpper)

/-- Fuelled worker for the model of Python str.split with a non-empty
separator: scan left to right, cutting at each leftmost occurrence of
the separator.  The fuel is the length of the scanned list, which bounds
the number of steps. -/
def splitChars (sep : List Char) : Nat → List Char → List Char → List (List Char)
  | _, [], acc => [acc.reverse]
  | 0, l, acc => [acc.reverse ++ l]
  | fuel + 1, c :: rest, acc =>
    if leadsWith sep (c :: rest) then
      acc.reverse :: splitChars sep fuel (List.drop (sep.length - 1) rest) []
    else
      splitChars sep fuel rest (c :: acc)

/-- Model of Python line.split(sep) for a non-empty separator string. -/
def pySplit (sep s : String) : List String :=
  (splitChars sep.data s.data.length s.data []).map String.mk

/-- Stress handling of convert (data_cleaning.py lines 6-13): strip a
leading primary-stress marker (apostrophe or U+02C8) giving suffix "1 ",
or a secondary-stress marker U+02CC giving suffix "2 ", else keep the
unit whole with suffix " ". -/
def stressSplit (ipa : String) : String × String :=
  if pyStartsWith squoteStr ipa || pyStartsWith "ˈ" ipa then
    (pyDrop1 ipa, "1 ")
  else if pyStartsWith "ˌ" ipa then
    (pyDrop1 ipa, "2 ")
  else
    (ipa, " ")

/-- The chained conditional of convert (data_cleaning.py lines 15-92):
map a stress-stripped IPA unit to its target phoneme code, or none when
no branch matches. -/
def phoneLookup (ipa : String) : Option String :=
  if ipa = "ɒ" ∨ ipa = "ɑ" then some "AA"
  else if ipa = "æ" then some "AE"
  else if ipa = "ʌ" ∨ ipa = "ə" then some "AH"
  else if ipa = "ɔ" then some "AO"
  else if ipa = "aʊ" then some "AW"
  else if ipa = "aɪ" then some "AY"
  else if ipa = "ɛ" then some "EH"
  else if ipa = "ɝ" ∨ ipa = "ɚ" then some "ER"
  else if ipa = "eɪ" then some "EY"
  else if ipa = "ɪ" then some "IH"
  else if ipa = "i" then some "IY"
  else if ipa = "oʊ" then some "OW"
  else if ipa = "ɔɪ" then some "OY"
  else if ipa = "ʊ" then some "UH"
  else if ipa = "u" then some "UW"
  else if ipa = "b" then some "B"
  else if ipa = "tʃ" ∨ ipa = "t͡ʃ" then some "CH"
  else if ipa = "d" then some "D"
  else if ipa = "ð" then some "DH"
  else if ipa = "f" then some "F"
  else if ipa = "ɡ" then some "G"
  else if ipa = "h" then some "HH"
  else if ipa = "dʒ" ∨ ipa = "d͡ʒ" then some "JH"
  else if ipa = "k" then some "K"
  else if ipa = "l" then some "L"
  else if ipa = "m" then some "M"
  else if ipa = "n" then some "N"
  else if ipa = "ŋ" then some "NG"
  else if ipa = "p" then some "P"
  else if ipa = "ɹ" then some "R"
  else if ipa = "s" then some "S"
  else if ipa = "ʃ" then some "SH"
  else if ipa = "t" then some "T"
  else if ipa = "θ" then some "TH"
  else if ipa = "v" then some "V"
  else if ipa = "w" then some "W"
  else if ipa = "j" then some "Y"
  else if ipa = "z" then some "Z"
  else if ipa = "ʒ" then some "ZH"
  else none

/-- Model of convert (data_cleaning.py lines 5-97).  The global set
bad_phones is threaded as the first component; the textual output is the
second.  On a table hit the output is the code followed by the stress
suffix; on a miss the stripped unit is added to the bad set and the
sentinel output is returned. -/
def convert (bad : Finset String) (ipa : String) : Finset String × String :=
  let p := stressSplit ipa
  match phoneLookup p.1 with
  | some phone => (bad, phone ++ p.2)
  | none => (insert p.1 bad, "<UNK> ")

/-- Sequential application of convert to a list of IPA units, threading
the bad-phoneme set and concatenating the textual outputs; this models
the expression joining map(convert, w.phonemes) in the script. -/
def convertAll (bad : Finset String) : List String → Finset String × String
  | [] => (bad, "")
  | ipa :: rest =>
    let r := convert bad ipa
    let rs := convertAll r.1 rest
    (rs.1, r.2 ++ rs.2)

/-- C6 sanity checks while developing. -/
example : convert ∅ "ˈeɪ" = (∅, "EY1 ") := by decide
example : convert ∅ "ˌə" = (∅, "AH2 ") := by decide
example : convert ∅ "t" = (∅, "T ") := by decide
example : convert ∅ "ˈt" = (∅, "T1 ") := by decide
example : convert ∅ "ˈq" = ({"q"}, "<UNK> ") := by decide

/-- Model of one iteration of the log-scanning loop (data_cleaning.py
lines 105-108): split the line on single quotes and take the
second-to-last field, stripped.  When the line has fewer than two
quote-delimited fields the Python indexing line.split(squote)[-2]
raises IndexError, modelled as none. -/
def extractWord (line : String) : Option String :=
  let parts := pySplit squoteStr line
  if 2 ≤ parts.length then
    some (pyStrip (parts.getD (parts.length - 2) ""))
  else
    none

/-- Model of the whole log-scanning loop: fold over the lines in order,
inserting each non-empty extracted word into the vocabulary set; the
first malformed line aborts the run (none). -/
def vocabExtract (ws : Finset String) : List String → Option (Finset String)
  | [] => some ws
  | line :: rest =>
    match extractWord line with
    | none => none
    | some s => vocabExtract (if 0 < s.length then insert s ws else ws) rest

/-- Model of one iteration of the lexicon-loading loop (data_cleaning.py
lines 111-115): split on a double space; when that yields a single
field, retry on a tab; the key is the first field unchanged and the
value is the second field stripped.  When both attempts leave fewer than
two fields the Python indexing s[1] raises IndexError, modelled as
none. -/
def parseLexLine (line : String) : Option (String × String) :=
  let s0 := pySplit "  " line
  let s := if s0.length = 1 then pySplit "\t" line else s0
  if 2 ≤ s.length then
    some (s.getD 0 "", pyStrip (s.getD 1 ""))
  else
    none

/-- Model of the whole lexicon-loading loop: fold over the lines in
order, appending each parsed entry; the first malformed line aborts the
run (none).  The entry list keeps duplicates so that the dict overwrite
semantics can be expressed by a last-match lookup. -/
def loadLexicon (acc : List (String × String)) : List String → Option (List (String × String))
  | [] => some acc
  | line :: rest =>
    match parseLexLine line with
    | none => none
    | some kv => loadLexicon (acc ++ [kv]) rest

/-- Lookup in the loaded lexicon entry list with Python dict overwrite
semantics: the most recent binding of a key wins. -/
def dictGet (entries : List (String × String)) (k : String) : Option String :=
  (entries.reverse.find? (fun kv => kv.1 == k)).map Prod.snd

/-- Model of the resolver loop (data_cleaning.py lines 117-124): each
vocabulary word present in the lexicon is emitted as a resolved pair and
each absent word goes to the still-OOV collection. -/
def resolve (vocab : String → Option String) : List String → List (String × String) × List String
  | [] => ([], [])
  | w :: rest =>
    let r := resolve vocab rest
    match vocab w with
    | some p => ((w, p) :: r.1, r.2)
    | none => (r.1, w :: r.2)

/-- The fixed case-exception allow-list (data_cleaning.py line 128). -/
def dont_recase : List String :=
  ["UV", "MVD", "LLD", "NRA", "MPS", "WDSU", "MWDDY", "VC", "LJ", "BBL"]

/-- Model of the recasing step (data_cleaning.py lines 135-136): words
outside the allow-list are lower-cased, allow-list members are kept. -/
def recase (word : String) : String :=
  if word ∈ dont_recase then word else pyLower word

/-- Model of the inner loop over the word-level units of one
sentence-level pass: each unit contributes the concatenation of the
convert outputs of its phonemes and bumps the counter i by one. -/
def transcribeSent (bad : Finset String) (acc : String) (i : Nat) :
    List (List String) → Finset String × String × Nat
  | [] => (bad, acc, i)
  | w :: ws =>
    let r := convertAll bad w
    transcribeSent r.1 (acc ++ r.2) (i + 1) ws

/-- Model of the loop over the sentence-level passes of the G2P result
for one word (data_cleaning.py lines 138-142), threading the bad set,
the accumulated phone string and the counter i. -/
def transcribeWord (bad : Finset String) (acc : String) (i : Nat) :
    List (List (List String)) → Finset String × String × Nat
  | [] => (bad, acc, i)
  | sent :: rest =>
    let r := transcribeSent bad acc i sent
    transcribeWord r.1 r.2.1 r.2.2 rest

/-- Model of one iteration of the OOV transcription loop
(data_cleaning.py lines 131-147) for one word.  The G2P routine (the
gruut sentences call, third-party code) is a parameter mapping the
recased word to its list of sentence-level passes, each a list of
word-level units, each a list of IPA phoneme strings.  Returns the
updated bad set, the counter i (the flag fires when 1 < i) and the
optional emitted output line. -/
def processWord (bad : Finset String) (g2p : String → List (List (List String)))
    (word : String) : Finset String × Nat × Option String :=
  let w := recase word
  let r := transcribeWord bad "" 0 (g2p w)
  (r.1, r.2.2,
    if 0 < r.2.1.length then
      some (pyUpper w ++ "  " ++ pyStrip r.2.1 ++ "\n")
    else
      none)

example : extractWord "abc" = none := by decide
example : extractWord ("say " ++ squoteStr ++ "hello" ++ squoteStr ++ " now")
  = some "hello" := by decide
example : parseLexLine "HELLO  HH AH L OW1" = some ("HELLO", "HH AH L OW1") := by decide
example : parseLexLine "WORLD\tW ER1 L D" = some ("WORLD", "W ER1 L D") := by decide
example : parseLexLine "HELLO" = none := by decide
example : recase "Hello" = "hello" := by decide
example : recase "UV" = "UV" := by decide
example : processWord ∅ (fun _ => [[["t"], ["ˈeɪ"]]]) "ta" =
  (∅, 2, some ("TA  T EY1" ++ "\n")) := by decide

/-- The textual output of convert does not depend on the bad set. -/
theorem convert_snd_const (bad : Finset String) (ipa : String) :
    (convert bad ipa).2 = (convert ∅ ipa).2 := by
  unfold convert
  cases h : phoneLookup (stressSplit ipa).1 <;> simp [h]

/-- Stress-stripped forms of the units of a run that have no table
entry, as a finite set. -/
def strippedBad (units : List String) : Finset String :=
  ((units.map (fun u => (stressSplit u).1)).filter
    (fun c => (phoneLookup c).isNone)).toFinset

theorem convertAll_fst (bad : Finset String) (units : List String) :
    (convertAll bad units).1 = bad ∪ strippedBad units := by
  induction units generalizing bad with
  | nil => simp [convertAll, strippedBad]
  | cons u rest ih =>
    unfold convertAll
    cases h : phoneLookup (stressSplit u).1 with
    | none =>
      simp only [convert, h]
      rw [ih]
      simp [strippedBad, h, Finset.union_insert, Finset.insert_union]
    | some p =>
      simp only [convert, h]
      rw [ih]
      simp [strippedBad, h]

/-- Dropping the first character of a non-empty string changes it. -/
theorem pyDrop1_ne (u : String) (h : u.data ≠ []) : pyDrop1 u ≠ u := by
  intro he
  have hd : (pyDrop1 u).data = u.data := congrArg String.data he
  cases hu : u.data with
  | nil => exact h hu
  | cons c cs =>
    rw [pyDrop1, hu] at hd
    have := congrArg List.length hd
    simp at this

/-- A string that leads with a one-character marker has a non-empty
character list. -/
theorem data_ne_nil_of_leads (m : Char) (u : String)
    (h : leadsWith [m] u.data = true) : u.data ≠ [] := by
  intro hu
  rw [hu] at h
  simp [leadsWith] at h

/-- C1: convert is total — every IPA unit yields a textual result, a
table hit yielding the code plus stress suffix and a miss yielding the
sentinel output with exactly one trailing space and the stress prefix
discarded, with the stripped unit recorded in the bad set — and the
units of a run that have no table entry are exactly the elements the run
adds to the bad-phoneme set. -/
theorem c1_convert_totality :
    (∀ bad ipa, (convert bad ipa).2 =
        match phoneLookup (stressSplit ipa).1 with
        | some phone => phone ++ (stressSplit ipa).2
        | none => "<UNK> ")
    ∧ (∀ bad ipa, phoneLookup (stressSplit ipa).1 = none →
        convert bad ipa = (insert (stressSplit ipa).1 bad, "<UNK> "))
    ∧ (∀ bad units, (convertAll bad units).1 = bad ∪ strippedBad units) := by
  refine ⟨?_, ?_, ?_⟩
  · intro bad ipa
    unfold convert
    cases h : phoneLookup (stressSplit ipa).1 <;> simp [h]
  · intro bad ipa h
    unfold convert
    simp [h]
  · exact convertAll_fst

/-- C1 witness: the unmapped stressed unit U+02C8 followed by U+0281
maps to the sentinel with the stripped form recorded. -/
theorem c1_convert_totality_witness :
    convert ∅ "ˈʁ" = (insert "ʁ" ∅, "<UNK> ") :=
  c1_convert_totality.2.1 ∅ "ˈʁ" (by decide)

/-- C6: the three concrete stress round-trips hold: a primary-stressed
diphthong yields EY1, a secondary-stressed schwa yields AH2, and a bare
consonant yields T with no stress digit. -/
theorem c6_stress_round_trip :
    convert ∅ "ˈeɪ" = (∅, "EY1 ") ∧ convert ∅ "ˌə" = (∅, "AH2 ")
    ∧ convert ∅ "t" = (∅, "T ") :=
  ⟨by decide, by decide, by decide⟩

/-- The 24 consonant codes of the target inventory. -/
def consonantCodes : List String :=
  ["B", "CH", "D", "DH", "F", "G", "HH", "JH", "K", "L", "M", "N", "NG",
   "P", "R", "S", "SH", "T", "TH", "V", "W", "Y", "Z", "ZH"]

/-- C4 counterexample: the primary-stressed consonant unit U+02C8
followed by t returns T1 with a stress digit, not the digitless T. -/
theorem c4_counterexample :
    (convert ∅ "ˈt").2 = "T1 " ∧ (convert ∅ "ˈt").2 ≠ "T " :=
  ⟨by decide, by decide⟩

/-- C4 amended: for a unit whose stripped form maps to a consonant code,
the output is the code followed by the stress suffix, and the suffix is
the bare space (no digit) exactly when the unit has no leading stress
marker; a stress-marked consonant unit receives the digit like a vowel
would. -/
theorem c4_consonant_stress (bad : Finset String) (ipa p : String)
    (hp : phoneLookup (stressSplit ipa).1 = some p) (_hc : p ∈ consonantCodes) :
    (convert bad ipa).2 = p ++ (stressSplit ipa).2
    ∧ ((stressSplit ipa).2 = " " ↔
        (pyStartsWith squoteStr ipa || pyStartsWith "ˈ" ipa
          || pyStartsWith "ˌ" ipa) = false) := by
  constructor
  · unfold convert
    simp [hp]
  · unfold stressSplit
    by_cases h1 : (pyStartsWith squoteStr ipa || pyStartsWith "ˈ" ipa) = true
    · simp [h1]
    · simp only [Bool.not_eq_true] at h1
      by_cases h2 : pyStartsWith "ˌ" ipa = true
      · simp [h1, h2]
      · simp only [Bool.not_eq_true] at h2
        simp [h1, h2]

/-- C4 witness: the unstressed consonant unit t yields code T with the
bare-space suffix and no stress marker present. -/
theorem c4_consonant_stress_witness :
    (convert ∅ "t").2 = "T" ++ (stressSplit "t").2
    ∧ ((stressSplit "t").2 = " " ↔
        (pyStartsWith squoteStr "t" || pyStartsWith "ˈ" "t"
          || pyStartsWith "ˌ" "t") = false) :=
  c4_consonant_stress ∅ "t" "T" (by decide) (by decide)

/-- C10: a convert call leaves the bad set unchanged whenever the
stripped unit has a table entry; on a miss it inserts exactly the
stripped form; and when the unit leads with a stress marker the stripped
form differs from the original unit. -/
theorem c10_convert_frame :
    (∀ bad u p, phoneLookup (stressSplit u).1 = some p → (convert bad u).1 = bad)
    ∧ (∀ bad u, phoneLookup (stressSplit u).1 = none →
        (convert bad u).1 = insert (stressSplit u).1 bad)
    ∧ (∀ u, (pyStartsWith squoteStr u || pyStartsWith "ˈ" u
          || pyStartsWith "ˌ" u) = true → (stressSplit u).1 ≠ u) := by
  refine ⟨?_, ?_, ?_⟩
  · intro bad u p h
    unfold convert
    simp [h]
  · intro bad u h
    unfold convert
    simp [h]
  · intro u h
    have hne : u.data ≠ [] := by
      rcases Bool.or_eq_true_iff.mp h with h1 | h2
      · rcases Bool.or_eq_true_iff.mp h1 with ha | hb
        · exact data_ne_nil_of_leads squote u ha
        · exact data_ne_nil_of_leads (Char.ofNat 712) u hb
      · exact data_ne_nil_of_leads (Char.ofNat 716) u h2
    unfold stressSplit
    by_cases h1 : (pyStartsWith squoteStr u || pyStartsWith "ˈ" u) = true
    · simp [h1]
      exact pyDrop1_ne u hne
    · simp only [Bool.not_eq_true] at h1
      have h2 : pyStartsWith "ˌ" u = true := by
        rcases Bool.or_eq_true_iff.mp h with ha | hb
        · rw [h1] at ha
          exact absurd ha (by decide)
        · exact hb
      simp [h1, h2]
      exact pyDrop1_ne u hne

/-- C10 witness: converting the stressed unmapped unit U+02CC followed
by U+0299 records the stripped form, which differs from the original. -/
theorem c10_convert_frame_witness :
    (convert ∅ "ˌʙ").1 = insert "ʙ" ∅ ∧ (stressSplit "ˌʙ").1 ≠ "ˌʙ" :=
  ⟨c10_convert_frame.2.1 ∅ "ˌʙ" (by decide),
   c10_convert_frame.2.2 "ˌʙ" (by decide)⟩

theorem resolve_fst_mem (vocab : String → Option String) (words : List String)
    (w p : String) :
    (w, p) ∈ (resolve vocab words).1 ↔ w ∈ words ∧ vocab w = some p := by
  induction words with
  | nil => simp [resolve]
  | cons a rest ih =>
    cases h : vocab a with
    | some q =>
      simp only [resolve, h, List.mem_cons, Prod.mk.injEq, ih]
      constructor
      · rintro (⟨rfl, rfl⟩ | ⟨hm, hv⟩)
        · exact ⟨Or.inl rfl, h⟩
        · exact ⟨Or.inr hm, hv⟩
      · rintro ⟨(rfl | hm), hv⟩
        · exact Or.inl ⟨rfl, by rw [h] at hv; exact (Option.some_injective _ hv).symm⟩
        · exact Or.inr ⟨hm, hv⟩
    | none =>
      simp only [resolve, h, List.mem_cons, ih]
      constructor
      · rintro ⟨hm, hv⟩
        exact ⟨Or.inr hm, hv⟩
      · rintro ⟨(rfl | hm), hv⟩
        · rw [h] at hv
          cases hv
        · exact ⟨hm, hv⟩

theorem resolve_snd_mem (vocab : String → Option String) (words : List String)
    (w : String) :
    w ∈ (resolve vocab words).2 ↔ w ∈ words ∧ vocab w = none := by
  induction words with
  | nil => simp [resolve]
  | cons a rest ih =>
    cases h : vocab a with
    | some q =>
      simp only [resolve, h, List.mem_cons, ih]
      constructor
      · rintro ⟨hm, hv⟩
        exact ⟨Or.inr hm, hv⟩
      · rintro ⟨(rfl | hm), hv⟩
        · rw [h] at hv
          cases hv
        · exact ⟨hm, hv⟩
    | none =>
      simp only [resolve, h, List.mem_cons, ih]
      constructor
      · rintro (rfl | ⟨hm, hv⟩)
        · exact ⟨Or.inl rfl, h⟩
        · exact ⟨Or.inr hm, hv⟩
      · rintro ⟨(rfl | hm), hv⟩
        · exact Or.inl rfl
        · exact Or.inr ⟨hm, hv⟩

/-- C2: the resolver partitions the vocabulary — every word lands in
exactly one of the resolved output and the still-OOV collection, never
both and never neither — and the resolved output holds exactly the
vocabulary words present in the lexicon, each with its lexicon phone
string. -/
theorem c2_resolver_partition (vocab : String → Option String) (words : List String) :
    (∀ w, w ∈ words →
        ((∃ p, (w, p) ∈ (resolve vocab words).1) ∧ w ∉ (resolve vocab words).2)
        ∨ (w ∈ (resolve vocab words).2 ∧ ∀ p, (w, p) ∉ (resolve vocab words).1))
    ∧ (∀ w p, (w, p) ∈ (resolve vocab words).1 ↔ w ∈ words ∧ vocab w = some p)
    ∧ (∀ w, w ∈ (resolve vocab words).2 ↔ w ∈ words ∧ vocab w = none) := by
  refine ⟨?_, resolve_fst_mem vocab words, resolve_snd_mem vocab words⟩
  intro w hw
  cases hv : vocab w with
  | some q =>
    left
    refine ⟨⟨q, (resolve_fst_mem vocab words w q).mpr ⟨hw, hv⟩⟩, fun hm => ?_⟩
    have := ((resolve_snd_mem vocab words w).mp hm).2
    rw [hv] at this
    cases this
  | none =>
    right
    refine ⟨(resolve_snd_mem vocab words w).mpr ⟨hw, hv⟩, fun p hp => ?_⟩
    have := ((resolve_fst_mem vocab words w p).mp hp).2
    rw [hv] at this
    cases this

/-- A two-entry sample lexicon lookup for the resolver witness. -/
def demoVocab : String → Option String := fun w =>
  if w = "HELLO" then some "HH AH L OW1" else none

/-- C2 witness: in a two-word vocabulary with HELLO in the lexicon, the
word HELLO lands in exactly one of the two outcomes. -/
theorem c2_resolver_partition_witness :
    ((∃ p, ("HELLO", p) ∈ (resolve demoVocab ["HELLO", "FOOBARXYZ"]).1)
      ∧ "HELLO" ∉ (resolve demoVocab ["HELLO", "FOOBARXYZ"]).2)
    ∨ ("HELLO" ∈ (resolve demoVocab ["HELLO", "FOOBARXYZ"]).2
      ∧ ∀ p, ("HELLO", p) ∉ (resolve demoVocab ["HELLO", "FOOBARXYZ"]).1) :=
  (c2_resolver_partition demoVocab ["HELLO", "FOOBARXYZ"]).1 "HELLO" (by decide)

/-- C3 counterexample: a log line with no single quote at all (fewer
than two quote-delimited fields) makes the extraction run abort with
none instead of skipping the line, and a lexicon line with neither a
double space nor a tab makes the load abort with none. -/
theorem c3_counterexample :
    vocabExtract ∅ ["speak friend and enter"] = none
    ∧ loadLexicon [] ["HELLO"] = none :=
  ⟨by decide, by decide⟩

/-- C3 amended: a log line with fewer than two quote-delimited fields,
or a lexicon line with fewer than two fields after both split attempts,
raises an uncaught IndexError modelled as none: the run aborts at the
offending line rather than skipping and counting it, and the run
completes exactly when no such line occurs in its input. -/
theorem c3_malformed_aborts (logLines lexLines : List String)
    (ws : Finset String) (acc : List (String × String)) :
    (vocabExtract ws logLines = none ↔ ∃ line ∈ logLines, extractWord line = none)
    ∧ (loadLexicon acc lexLines = none ↔ ∃ line ∈ lexLines, parseLexLine line = none)
    ∧ (∀ line, extractWord line = none ↔ (pySplit squoteStr line).length < 2) := by
  refine ⟨?_, ?_, ?_⟩
  · induction logLines generalizing ws with
    | nil => simp [vocabExtract]
    | cons line rest ih =>
      cases h : extractWord line with
      | none => simp [vocabExtract, h]
      | some s => simp [vocabExtract, h, ih]
  · induction lexLines generalizing acc with
    | nil => simp [loadLexicon]
    | cons line rest ih =>
      cases h : parseLexLine line with
      | none => simp [loadLexicon, h]
      | some kv => simp [loadLexicon, h, ih]
  · intro line
    unfold extractWord
    by_cases h : 2 ≤ (pySplit squoteStr line).length
    · simp only [if_pos h]
      constructor
      · intro hc
        exact Option.noConfusion hc
      · intro hc
        exact absurd hc (by omega)
    · simp only [if_neg h]
      constructor
      · intro _
        omega
      · intro _
        trivial


theorem char_toNat_ofNat (n : Nat) (h : n.isValidChar) : (Char.ofNat n).toNat = n := by
  simp only [Char.ofNat, dif_pos h, Char.ofNatAux, Char.toNat]
  simp [UInt32.toNat]

theorem char_ofNat_toNat (c : Char) : Char.ofNat c.toNat = c := by
  have hv : Nat.isValidChar c.toNat := c.valid
  apply Char.ext
  simp only [Char.ofNat, dif_pos hv, Char.ofNatAux]
  apply UInt32.ext
  simp [UInt32.toNat, Char.toNat]

/-- Lower-casing never produces a character in the upper-case ASCII
range. -/
theorem toLower_not_upper (c : Char) :
    ¬(65 ≤ (Char.toLower c).toNat ∧ (Char.toLower c).toNat ≤ 90) := by
  unfold Char.toLower
  by_cases h : c.toNat ≥ 65 ∧ c.toNat ≤ 90
  · rw [if_pos h]
    have hv : (c.toNat + 32).isValidChar := by
      left
      omega
    rw [char_toNat_ofNat _ hv]
    omega
  · rw [if_neg h]
    omega

theorem toLower_idem (c : Char) : Char.toLower (Char.toLower c) = Char.toLower c := by
  conv_lhs => rw [Char.toLower]
  rw [if_neg]
  intro hc
  exact toLower_not_upper c ⟨hc.1, hc.2⟩

theorem toUpper_toLower (c : Char) : Char.toUpper (Char.toLower c) = Char.toUpper c := by
  unfold Char.toLower Char.toUpper
  by_cases h : c.toNat ≥ 65 ∧ c.toNat ≤ 90
  · rw [if_pos h]
    have hv : (c.toNat + 32).isValidChar := by
      left
      omega
    rw [char_toNat_ofNat _ hv, if_pos (by omega), if_neg (by omega)]
    have : c.toNat + 32 - 32 = c.toNat := by omega
    rw [this, char_ofNat_toNat]
  · rw [if_neg h]

theorem pyLower_idem (s : String) : pyLower (pyLower s) = pyLower s := by
  unfold pyLower
  simp only [List.map_map]
  congr 1
  apply List.map_congr_left
  intro c _
  exact toLower_idem c

theorem pyUpper_pyLower (s : String) : pyUpper (pyLower s) = pyUpper s := by
  unfold pyUpper pyLower
  simp only [List.map_map]
  congr 1
  apply List.map_congr_left
  intro c _
  exact toUpper_toLower c

/-- The lower-cased form of a string is never an allow-list member,
because every allow-list entry contains an upper-case letter. -/
theorem pyLower_notin_allowlist (s : String) : pyLower s ∉ dont_recase := by
  intro hmem
  have hU : ∀ t ∈ dont_recase, ∃ c ∈ t.data, 65 ≤ c.toNat ∧ c.toNat ≤ 90 := by decide
  obtain ⟨c, hc, hcu⟩ := hU _ hmem
  simp only [pyLower] at hc
  obtain ⟨a, _, rfl⟩ := List.mem_map.mp hc
  exact toLower_not_upper a hcu

/-- C8 counterexample: a word already in lower case and outside the
allow-list is left unchanged by recasing, refuting the only-if direction
of the membership criterion. -/
theorem c8_counterexample :
    recase "hello" = "hello" ∧ "hello" ∉ dont_recase :=
  ⟨by decide, by decide⟩

/-- C8 amended: recasing keeps allow-list members unchanged, lower-cases
every other word regardless of original casing (so a word outside the
list is unchanged exactly when already lower-case), and is idempotent. -/
theorem c8_recase (w : String) :
    (w ∈ dont_recase → recase w = w)
    ∧ (w ∉ dont_recase → recase w = pyLower w)
    ∧ recase (recase w) = recase w := by
  refine ⟨fun h => by simp [recase, h], fun h => by simp [recase, h], ?_⟩
  by_cases h : w ∈ dont_recase
  · simp [recase, h]
  · have h1 : recase w = pyLower w := by simp [recase, h]
    rw [h1]
    have h2 : pyLower w ∉ dont_recase := pyLower_notin_allowlist w
    simp [recase, h2, pyLower_idem]

/-- C8 witness: the allow-list member UV is untouched while the
mixed-case word Hello is lower-cased. -/
theorem c8_recase_witness :
    recase "UV" = "UV" ∧ recase "Hello" = pyLower "Hello" :=
  ⟨(c8_recase "UV").1 (by decide), (c8_recase "Hello").2.1 (by decide)⟩

/-- Reference concatenation of the convert outputs of a phoneme list,
independent of the threaded bad set. -/
def joinOuts : List String → String
  | [] => ""
  | u :: rest => (convert ∅ u).2 ++ joinOuts rest

/-- Reference concatenation over the word-level units of one pass. -/
def sentOut : List (List String) → String
  | [] => ""
  | w :: ws => joinOuts w ++ sentOut ws

/-- Reference concatenation over all sentence-level passes. -/
def passesOut : List (List (List String)) → String
  | [] => ""
  | s :: ss => sentOut s ++ passesOut ss

theorem convertAll_snd (bad : Finset String) (us : List String) :
    (convertAll bad us).2 = joinOuts us := by
  induction us generalizing bad with
  | nil => rfl
  | cons u rest ih =>
    simp only [convertAll, joinOuts, ih, convert_snd_const bad u]

theorem transcribeSent_out (bad : Finset String) (acc : String) (i : Nat)
    (ws : List (List String)) :
    (transcribeSent bad acc i ws).2.1 = acc ++ sentOut ws := by
  induction ws generalizing bad acc i with
  | nil => simp [transcribeSent, sentOut]
  | cons w rest ih =>
    simp only [transcribeSent, sentOut, ih, convertAll_snd, String.append_assoc]

theorem transcribeSent_cnt (bad : Finset String) (acc : String) (i : Nat)
    (ws : List (List String)) :
    (transcribeSent bad acc i ws).2.2 = i + ws.length := by
  induction ws generalizing bad acc i with
  | nil => simp [transcribeSent]
  | cons w rest ih =>
    simp only [transcribeSent, ih, List.length_cons]
    omega

theorem transcribeWord_out (bad : Finset String) (acc : String) (i : Nat)
    (ss : List (List (List String))) :
    (transcribeWord bad acc i ss).2.1 = acc ++ passesOut ss := by
  induction ss generalizing bad acc i with
  | nil => simp [transcribeWord, passesOut]
  | cons s rest ih =>
    simp only [transcribeWord, passesOut, ih, transcribeSent_out, String.append_assoc]

theorem transcribeWord_cnt (bad : Finset String) (acc : String) (i : Nat)
    (ss : List (List (List String))) :
    (transcribeWord bad acc i ss).2.2 = i + (ss.map List.length).sum := by
  induction ss generalizing bad acc i with
  | nil => simp [transcribeWord]
  | cons s rest ih =>
    simp only [transcribeWord, ih, transcribeSent_cnt, List.map_cons, List.sum_cons]
    omega

/-- C5 counterexample: a G2P result with exactly one sentence-level pass
holding two word-level units drives the counter to 2, so the multi-pass
anomaly fires although only one pass was produced. -/
theorem c5_counterexample :
    1 < (transcribeWord ∅ "" 0 [[["t"], ["d"]]]).2.2
    ∧ ([[["t"], ["d"]]] : List (List (List String))).length = 1 :=
  ⟨by decide, by decide⟩

/-- C5 amended: the anomaly counter reaches past one exactly when the
total number of word-level units across all passes exceeds one (a single
pass with several word units also fires it), and — flagged or not — the
phonemes of all passes are transliterated and concatenated in order into
the single phone string of the word. -/
theorem c5_multipass (bad : Finset String) (passes : List (List (List String))) :
    (1 < (transcribeWord bad "" 0 passes).2.2 ↔ 1 < (passes.map List.length).sum)
    ∧ (transcribeWord bad "" 0 passes).2.1 = passesOut passes := by
  constructor
  · rw [transcribeWord_cnt]
    omega
  · rw [transcribeWord_out]
    exact String.empty_append _

/-- C7 counterexample: a lexicon line whose first field carries a
leading space stores that field verbatim as the key; the key is not
trimmed, contradicting the claimed trimming of the first field. -/
theorem c7_counterexample :
    parseLexLine " A  B" = some (" A", "B") ∧ pyStrip " A" = "A"
    ∧ (" A" : String) ≠ "A" :=
  ⟨by decide, by decide, by decide⟩

/-- C7 amended: the loader splits on the double space, retries with a
single tab exactly when that split yields fewer than two fields, stores
the first field of the successful split unchanged (not trimmed) as the
key and the trimmed second field as the value; the two sample lines
parse to the claimed pairs. -/
theorem c7_lexline (line : String) :
    (2 ≤ (pySplit "  " line).length →
        parseLexLine line =
          some ((pySplit "  " line).getD 0 "",
            pyStrip ((pySplit "  " line).getD 1 "")))
    ∧ ((pySplit "  " line).length = 1 → 2 ≤ (pySplit "\t" line).length →
        parseLexLine line =
          some ((pySplit "\t" line).getD 0 "",
            pyStrip ((pySplit "\t" line).getD 1 "")))
    ∧ parseLexLine "HELLO  HH AH L OW1" = some ("HELLO", "HH AH L OW1")
    ∧ parseLexLine "WORLD\tW ER1 L D" = some ("WORLD", "W ER1 L D") := by
  refine ⟨?_, ?_, by decide, by decide⟩
  · intro h2
    have h1 : ¬((pySplit "  " line).length = 1) := by omega
    simp only [parseLexLine, if_neg h1, if_pos h2]
  · intro h1 h2
    simp only [parseLexLine, if_pos h1, if_pos h2]

/-- C7 witness: a three-field double-space line takes the double-space
branch and stores the untrimmed first field with the trimmed second. -/
theorem c7_lexline_witness :
    parseLexLine "AB  CD  EF" =
      some ((pySplit "  " "AB  CD  EF").getD 0 "",
        pyStrip ((pySplit "  " "AB  CD  EF").getD 1 "")) :=
  (c7_lexline "AB  CD  EF").1 (by decide)

/-- The 39 codes of the target inventory. -/
def allCodes : List String :=
  ["AA", "AE", "AH", "AO", "AW", "AY", "EH", "ER", "EY", "IH", "IY", "OW",
   "OY", "UH", "UW", "B", "CH", "D", "DH", "F", "G", "HH", "JH", "K", "L",
   "M", "N", "NG", "P", "R", "S", "SH", "T", "TH", "V", "W", "Y", "Z", "ZH"]

/-- The 44 IPA keys of the mapping table, in source order. -/
def allKeys : List String :=
  ["ɒ", "ɑ", "æ", "ʌ", "ə", "ɔ", "aʊ", "aɪ", "ɛ", "ɝ", "ɚ", "eɪ", "ɪ", "i",
   "oʊ", "ɔɪ", "ʊ", "u", "b", "tʃ", "t͡ʃ", "d", "ð", "f", "ɡ", "h", "dʒ",
   "d͡ʒ", "k", "l", "m", "n", "ŋ", "p", "ɹ", "s", "ʃ", "t", "θ", "v", "w",
   "j", "z", "ʒ"]

theorem phoneLookup_none (x : String) (hx : x ∉ allKeys) : phoneLookup x = none := by
  simp only [allKeys, List.mem_cons, not_or, List.not_mem_nil, not_false_iff,
    and_true] at hx
  simp [phoneLookup, hx]

theorem phoneLookup_mem (x p : String) (h : phoneLookup x = some p) :
    p ∈ allCodes := by
  by_cases hx : x ∈ allKeys
  · have hall : ∀ y ∈ allKeys, (phoneLookup y).getD "AA" ∈ allCodes := by decide
    have hp : p = (phoneLookup x).getD "AA" := by
      rw [h]
      rfl
    rw [hp]
    exact hall x hx
  · rw [phoneLookup_none x hx] at h
    exact Option.noConfusion h

/-- A string has ink when it contains a non-whitespace character. -/
abbrev hasInk (s : String) : Prop := ∃ c ∈ s.data, isSpaceChar c = false

theorem ink_append_left (a b : String) (h : hasInk a) : hasInk (a ++ b) := by
  obtain ⟨c, hc, hcs⟩ := h
  exact ⟨c, by rw [String.data_append]; exact List.mem_append_left _ hc, hcs⟩

theorem inkOrEmpty_append (a b : String)
    (ha : a = "" ∨ hasInk a) (hb : b = "" ∨ hasInk b) :
    a ++ b = "" ∨ hasInk (a ++ b) := by
  rcases ha with rfl | ha
  · rcases hb with rfl | hb
    · left
      exact String.empty_append ""
    · right
      rw [String.empty_append]
      exact hb
  · right
    exact ink_append_left a b ha

/-- Every convert output contains a non-whitespace character: a code
from the inventory or the sentinel left bracket. -/
theorem convert_out_ink (bad : Finset String) (u : String) :
    hasInk (convert bad u).2 := by
  cases h : phoneLookup (stressSplit u).1 with
  | none =>
    simp only [convert, h]
    decide
  | some p =>
    simp only [convert, h]
    have hp := phoneLookup_mem _ _ h
    have hink : ∀ q ∈ allCodes, hasInk q := by decide
    exact ink_append_left _ _ (hink p hp)

theorem joinOuts_inkOrEmpty (us : List String) :
    joinOuts us = "" ∨ hasInk (joinOuts us) := by
  cases us with
  | nil => exact Or.inl rfl
  | cons u rest =>
    right
    exact ink_append_left _ _ (convert_out_ink ∅ u)

theorem sentOut_inkOrEmpty (ws : List (List String)) :
    sentOut ws = "" ∨ hasInk (sentOut ws) := by
  induction ws with
  | nil => exact Or.inl rfl
  | cons w rest ih => exact inkOrEmpty_append _ _ (joinOuts_inkOrEmpty w) ih

theorem passesOut_inkOrEmpty (ss : List (List (List String))) :
    passesOut ss = "" ∨ hasInk (passesOut ss) := by
  induction ss with
  | nil => exact Or.inl rfl
  | cons s rest ih => exact inkOrEmpty_append _ _ (sentOut_inkOrEmpty s) ih

theorem mem_dropWhile_of_not (p : Char → Bool) (l : List Char) (c : Char)
    (hc : c ∈ l) (hp : p c = false) : c ∈ l.dropWhile p := by
  induction l with
  | nil => cases hc
  | cons a rest ih =>
    by_cases ha : p a = true
    · simp only [List.dropWhile_cons, ha, if_true]
      rcases List.mem_cons.mp hc with rfl | hm
      · rw [hp] at ha
        cases ha
      · exact ih hm
    · simp only [List.dropWhile_cons, ha, if_false]
      exact hc

theorem trim_ne_nil_of_ink (l : List Char) (c : Char) (hc : c ∈ l)
    (hcs : isSpaceChar c = false) : trimChars l ≠ [] := by
  intro he
  have h1 : c ∈ l.dropWhile isSpaceChar := mem_dropWhile_of_not _ _ _ hc hcs
  have h2 : c ∈ (l.dropWhile isSpaceChar).reverse := List.mem_reverse.mpr h1
  have h3 : c ∈ (l.dropWhile isSpaceChar).reverse.dropWhile isSpaceChar :=
    mem_dropWhile_of_not _ _ _ h2 hcs
  have h4 : c ∈ ((l.dropWhile isSpaceChar).reverse.dropWhile isSpaceChar).reverse :=
    List.mem_reverse.mpr h3
  rw [show ((l.dropWhile isSpaceChar).reverse.dropWhile isSpaceChar).reverse
        = trimChars l from rfl, he] at h4
  cases h4

theorem pyStrip_ne_empty (s : String) (h : hasInk s) : pyStrip s ≠ "" := by
  obtain ⟨c, hc, hcs⟩ := h
  intro he
  have hd : trimChars s.data = [] := congrArg String.data he
  exact trim_ne_nil_of_ink s.data c hc hcs hd

/-- The phone string assembled for one OOV word before emission. -/
def assembled (bad : Finset String) (g2p : String → List (List (List String)))
    (word : String) : String :=
  (transcribeWord bad "" 0 (g2p (recase word))).2.1

/-- C9: for an OOV word a record is emitted exactly when the assembled
phone string is non-empty, which (because every convert output contains
a non-whitespace character) coincides with being non-empty after
trimming; the emitted line is the upper-cased word, a double space, the
trimmed phone string and a newline, and upper-casing the recased word
gives the same text as upper-casing the original word. -/
theorem c9_emission (bad : Finset String)
    (g2p : String → List (List (List String))) (word : String) :
    ((processWord bad g2p word).2.2 ≠ none ↔
        pyStrip (assembled bad g2p word) ≠ "")
    ∧ (processWord bad g2p word).2.2 =
        (if pyStrip (assembled bad g2p word) = "" then none
         else some (pyUpper word ++ "  " ++ pyStrip (assembled bad g2p word) ++ "\n"))
    ∧ pyUpper (recase word) = pyUpper word := by
  have hup : pyUpper (recase word) = pyUpper word := by
    unfold recase
    by_cases h : word ∈ dont_recase
    · rw [if_pos h]
    · rw [if_neg h]
      exact pyUpper_pyLower word
  have hs : assembled bad g2p word = passesOut (g2p (recase word)) := by
    unfold assembled
    rw [transcribeWord_out]
    exact String.empty_append _
  have hpw : (processWord bad g2p word).2.2 =
      (if 0 < (assembled bad g2p word).length then
        some (pyUpper (recase word) ++ "  " ++ pyStrip (assembled bad g2p word) ++ "\n")
       else none) := rfl
  have hioe : assembled bad g2p word = "" ∨ hasInk (assembled bad g2p word) := by
    rw [hs]
    exact passesOut_inkOrEmpty _
  rcases hioe with he | hink
  · have h0 : ¬(0 < (assembled bad g2p word).length) := by
      rw [he]
      decide
    have hst : pyStrip (assembled bad g2p word) = "" := by
      rw [he]
      decide
    rw [hpw, if_neg h0, hst]
    refine ⟨?_, ?_, hup⟩
    · simp
    · simp
  · have hlen : 0 < (assembled bad g2p word).length := by
      obtain ⟨c, hc, _⟩ := hink
      have hne : (assembled bad g2p word).data ≠ [] := List.ne_nil_of_mem hc
      have : (assembled bad g2p word).length = (assembled bad g2p word).data.length := rfl
      rw [this]
      exact List.length_pos.mpr hne
    have hst : pyStrip (assembled bad g2p word) ≠ "" := pyStrip_ne_empty _ hink
    rw [hpw, if_pos hlen, if_neg hst, hup]
    refine ⟨?_, rfl, rfl⟩
    simp [hst]
